import Mathlib

/-!
Shallow embedding of the ERC-20 Token Faucet DApp core contracts
(`Token.sol` and `TokenFaucet.sol`) and proofs of the specification's
claims about them.

Addresses are modelled as `Nat` (0 is the zero/null address), amounts and
timestamps as `Nat` (Solidity 0.8 checked arithmetic: an overflowing
operation reverts, and none of the operations here can overflow for the
values reachable from the constants involved).  A reverting Solidity call
is modelled as `Except Err`: on `.error` no state is produced, matching the
EVM's transaction rollback.  Events are collected in a list.
-/

/-- Error kinds, one per distinct `require` message in the source. -/
inductive Err where
  | faucetPaused            -- "Faucet is paused"
  | cooldownActive          -- "Cooldown period not elapsed"
  | lifetimeLimitReached    -- "Lifetime claim limit reached"
  | insufficientAllowance   -- "Insufficient faucet balance"
  | onlyMinter              -- "Only minter can mint tokens"
  | exceedsMaxSupply        -- "Exceeds maximum supply"
  | mintToZero              -- "Cannot mint to zero address"
  | notOwner                -- OpenZeppelin Ownable: caller is not the owner
  | minterZero              -- "Minter cannot be zero address"
  deriving DecidableEq, Repr

/-- Events emitted by the two contracts. -/
inductive Event where
  | tokensClaimed (user : Nat) (amount : Nat) (timestamp : Nat)
  | faucetPausedEv (paused : Bool)
  | minterUpdated (newMinter : Nat)
  | transfer (src dst : Nat) (amount : Nat)  -- ERC20 Transfer; mint has src = 0
  deriving DecidableEq, Repr

/-- Token.sol constant: `MAX_SUPPLY = 100_000_000 * 10 ** 18`. -/
def MAX_SUPPLY : Nat := 100000000 * 10 ^ 18

/-- TokenFaucet.sol constant: `FAUCET_AMOUNT = 10 * 10 ** 18`. -/
def FAUCET_AMOUNT : Nat := 10 * 10 ^ 18

/-- TokenFaucet.sol constant: `COOLDOWN_TIME = 24 hours` (in seconds). -/
def COOLDOWN_TIME : Nat := 24 * 60 * 60

/-- TokenFaucet.sol constant: `MAX_CLAIM_AMOUNT = 100 * 10 ** 18`. -/
def MAX_CLAIM_AMOUNT : Nat := 100 * 10 ^ 18

/-- State of the `Token` contract (ERC20 + Ownable + minter role). -/
structure TokenState where
  owner : Nat
  minter : Nat
  balances : Nat → Nat
  totalSupply : Nat

/-- State of the `TokenFaucet` contract. -/
structure FaucetState where
  owner : Nat
  paused : Bool
  lastClaimAt : Nat → Nat
  totalClaimed : Nat → Nat

/-- The two deployed contracts together; `faucetAddr` is the faucet
contract's own address (the `msg.sender` the token sees on `mint`). -/
structure SysState where
  token : TokenState
  faucet : FaucetState
  faucetAddr : Nat

/-- `Token.setMinter`: `onlyOwner`, rejects the zero address, records the
sole identity permitted to mint. -/
def Token.setMinter (t : TokenState) (caller _minter : Nat) :
    Except Err (TokenState × List Event) :=
  if caller ≠ t.owner then .error .notOwner
  else if _minter = 0 then .error .minterZero
  else .ok ({ t with minter := _minter }, [Event.minterUpdated _minter])

/-- `Token.mint`: only the recorded minter may mint; the supply cap is
checked before the zero-address check; on success `_mint` credits `to` and
raises `totalSupply` (mirrors `_mint`), emitting `Transfer(address(0), to, amount)`. -/
def Token.mint (t : TokenState) (caller dst : Nat) (amount : Nat) :
    Except Err (TokenState × List Event) :=
  if caller ≠ t.minter then .error .onlyMinter
  else if ¬ (t.totalSupply + amount ≤ MAX_SUPPLY) then .error .exceedsMaxSupply
  else if dst = 0 then .error .mintToZero
  else .ok ({ t with
                balances := fun a => if a = dst then t.balances a + amount else t.balances a,
                totalSupply := t.totalSupply + amount },
            [Event.transfer 0 dst amount])

/-- `TokenFaucet.remainingAllowance`. -/
def remainingAllowance (f : FaucetState) (user : Nat) : Nat :=
  let claimed := f.totalClaimed user
  if MAX_CLAIM_AMOUNT ≤ claimed then 0 else MAX_CLAIM_AMOUNT - claimed

/-- `TokenFaucet.canClaim`. -/
def canClaim (f : FaucetState) (now : Nat) (user : Nat) : Bool :=
  if f.paused then false
  else if MAX_CLAIM_AMOUNT ≤ f.totalClaimed user then false
  else if f.lastClaimAt user = 0 then true
  else if f.lastClaimAt user + COOLDOWN_TIME ≤ now then true
  else false

/-- `TokenFaucet.timeUntilNextClaim`. -/
def timeUntilNextClaim (f : FaucetState) (now : Nat) (user : Nat) : Nat :=
  if f.lastClaimAt user = 0 then 0
  else
    let nextClaimTime := f.lastClaimAt user + COOLDOWN_TIME
    if nextClaimTime ≤ now then 0 else nextClaimTime - now

/-- `TokenFaucet.isPaused`. -/
def isPaused (f : FaucetState) : Bool := f.paused

/-- `TokenFaucet.requestTokens`, called by `caller` in a block whose
timestamp is `now`.  Each `if` mirrors one `require`, failing exactly when
the required condition is false, in source order; then the per-identity
state is updated, `token.mint` is invoked, and `TokensClaimed` is emitted.
A failure of the nested `mint` call reverts the whole transaction, so the
`.error` outcome carries no state. -/
def requestTokens (s : SysState) (caller : Nat) (now : Nat) :
    Except Err (SysState × List Event) :=
  if s.faucet.paused then .error .faucetPaused
  else if ¬ (s.faucet.lastClaimAt caller = 0 ∨
             s.faucet.lastClaimAt caller + COOLDOWN_TIME ≤ now) then
    .error .cooldownActive
  else if ¬ (s.faucet.totalClaimed caller < MAX_CLAIM_AMOUNT) then
    .error .lifetimeLimitReached
  else if ¬ (FAUCET_AMOUNT ≤ remainingAllowance s.faucet caller) then
    .error .insufficientAllowance
  else
    match Token.mint s.token s.faucetAddr caller FAUCET_AMOUNT with
    | .error e => .error e
    | .ok (t, evs) =>
        .ok ({ s with token := t,
                      faucet := { s.faucet with
                        lastClaimAt := fun a =>
                          if a = caller then now else s.faucet.lastClaimAt a,
                        totalClaimed := fun a =>
                          if a = caller then s.faucet.totalClaimed a + FAUCET_AMOUNT
                          else s.faucet.totalClaimed a } },
             evs ++ [Event.tokensClaimed caller FAUCET_AMOUNT now])

/-- `TokenFaucet.setPaused`: `onlyOwner`; sets the flag and emits
`FaucetPaused` unconditionally. -/
def setPaused (f : FaucetState) (caller : Nat) (_paused : Bool) :
    Except Err (FaucetState × List Event) :=
  if caller ≠ f.owner then .error .notOwner
  else .ok ({ f with paused := _paused }, [Event.faucetPausedEv _paused])

/-- One externally submitted transaction, with its caller and (for claims)
the block timestamp at which it executes. -/
inductive Op where
  | requestClaim (caller : Nat) (now : Nat)
  | setPausedOp (caller : Nat) (paused : Bool)
  | setMinterOp (caller minter : Nat)
  | mintOp (caller dst : Nat) (amount : Nat)
  deriving DecidableEq, Repr

/-- Execute one transaction: on success the new state plus its emitted
events, on revert the unchanged pre-state and no events (EVM rollback). -/
def stepEv (s : SysState) : Op → SysState × List Event
  | .requestClaim caller now =>
      match requestTokens s caller now with
      | .ok (s', evs) => (s', evs)
      | .error _ => (s, [])
  | .setPausedOp caller b =>
      match setPaused s.faucet caller b with
      | .ok (f, evs) => ({ s with faucet := f }, evs)
      | .error _ => (s, [])
  | .setMinterOp caller m =>
      match Token.setMinter s.token caller m with
      | .ok (t, evs) => ({ s with token := t }, evs)
      | .error _ => (s, [])
  | .mintOp caller dst amount =>
      match Token.mint s.token caller dst amount with
      | .ok (t, evs) => ({ s with token := t }, evs)
      | .error _ => (s, [])

/-- The committed state after one transaction. -/
def step (s : SysState) (op : Op) : SysState := (stepEv s op).1

/-- The events emitted by one transaction (empty when it reverts). -/
def txEvents (s : SysState) (op : Op) : List Event := (stepEv s op).2

/-- State right after both constructors ran: `deployer` owns both
contracts, `minter` is unset, all balances and per-identity records are
zero, the faucet is unpaused. -/
def initState (deployer faucetAddr : Nat) : SysState :=
  { token := { owner := deployer, minter := 0, balances := fun _ => 0, totalSupply := 0 },
    faucet := { owner := deployer, paused := false,
                lastClaimAt := fun _ => 0, totalClaimed := fun _ => 0 },
    faucetAddr := faucetAddr }

/-- The state reached from deployment by a sequence of transactions. -/
def run (deployer faucetAddr : Nat) (ops : List Op) : SysState :=
  ops.foldl step (initState deployer faucetAddr)

/-- `true` on the errors produced by the four eligibility guards of
`requestTokens`, `false` on errors originating in the token. -/
def guardError : Err → Bool
  | .faucetPaused | .cooldownActive | .lifetimeLimitReached | .insufficientAllowance => true
  | _ => false

/-- Whether a fallible call succeeded. -/
def exOk {α : Type} : Except Err α → Bool
  | .ok _ => true
  | .error _ => false

/-- `true` exactly on the two transaction kinds that can change the inputs
of `canClaim` (the pause flag or the per-identity claim records). -/
def mutatesEligibility : Op → Bool
  | .requestClaim _ _ => true
  | .setPausedOp _ _ => true
  | .setMinterOp _ _ => false
  | .mintOp _ _ _ => false

/-- Example state: freshly deployed by address 1 with the faucet contract
at address 2; the minter is not configured yet. -/
def exInit : SysState := initState 1 2

/-- Example state: deployment followed by `setMinter(faucet)`, the
configuration the deploy script establishes. -/
def exReady : SysState := run 1 2 [Op.setMinterOp 1 2]

/-! ### Inversion and characterization helpers -/

theorem mint_ok_inv {t t' : TokenState} {c d : Nat} {a : Nat} {evs : List Event}
    (h : Token.mint t c d a = .ok (t', evs)) :
    c = t.minter ∧ t.totalSupply + a ≤ MAX_SUPPLY ∧ d ≠ 0 ∧
    t' = { t with
             balances := fun x => if x = d then t.balances x + a else t.balances x,
             totalSupply := t.totalSupply + a } ∧
    evs = [Event.transfer 0 d a] := by
  unfold Token.mint at h
  split at h
  · exact absurd h (by simp)
  split at h
  · exact absurd h (by simp)
  split at h
  · exact absurd h (by simp)
  · rename_i h1 h2 h3
    injection h with h'
    injection h' with ha hb
    subst ha; subst hb
    exact ⟨not_not.mp h1, not_not.mp h2, h3, rfl, rfl⟩

theorem mint_error_state {t : TokenState} {c d : Nat} {a : Nat}
    (h : exOk (Token.mint t c d a) = false) (s : SysState) (hs : s.token = t) :
    step s (Op.mintOp c d a) = s := by
  unfold step stepEv
  subst hs
  cases hm : Token.mint s.token c d a with
  | ok v => rw [hm] at h; simp [exOk] at h
  | error e => simp [hm]

theorem requestTokens_ok_inv {s s' : SysState} {c : Nat} {n : Nat} {evs : List Event}
    (h : requestTokens s c n = .ok (s', evs)) :
    s.faucet.paused = false ∧
    (s.faucet.lastClaimAt c = 0 ∨ s.faucet.lastClaimAt c + COOLDOWN_TIME ≤ n) ∧
    s.faucet.totalClaimed c < MAX_CLAIM_AMOUNT ∧
    FAUCET_AMOUNT ≤ remainingAllowance s.faucet c ∧
    Token.mint s.token s.faucetAddr c FAUCET_AMOUNT = .ok (s'.token, [Event.transfer 0 c FAUCET_AMOUNT]) ∧
    s'.faucetAddr = s.faucetAddr ∧
    s'.faucet.owner = s.faucet.owner ∧
    s'.faucet.paused = s.faucet.paused ∧
    s'.faucet.lastClaimAt = (fun a => if a = c then n else s.faucet.lastClaimAt a) ∧
    s'.faucet.totalClaimed = (fun a =>
      if a = c then s.faucet.totalClaimed a + FAUCET_AMOUNT else s.faucet.totalClaimed a) ∧
    evs = [Event.transfer 0 c FAUCET_AMOUNT, Event.tokensClaimed c FAUCET_AMOUNT n] := by
  unfold requestTokens at h
  split at h
  · exact absurd h (by simp)
  split at h
  · exact absurd h (by simp)
  split at h
  · exact absurd h (by simp)
  split at h
  · exact absurd h (by simp)
  · rename_i h1 h2 h3 h4
    cases hm : Token.mint s.token s.faucetAddr c FAUCET_AMOUNT with
    | error e => rw [hm] at h; exact absurd h (by simp)
    | ok v =>
        obtain ⟨t, evsm⟩ := v
        rw [hm] at h
        obtain ⟨_, _, _, _, hevs⟩ := mint_ok_inv hm
        subst hevs
        injection h with h'
        injection h' with ha hb
        subst ha; subst hb
        exact ⟨by simpa using h1, not_not.mp h2, not_not.mp h3, not_not.mp h4,
               rfl, rfl, rfl, rfl, rfl, rfl, rfl⟩

theorem mint_error_inv {t : TokenState} {c d : Nat} {a : Nat} {e : Err}
    (h : Token.mint t c d a = .error e) :
    e = .onlyMinter ∨ e = .exceedsMaxSupply ∨ e = .mintToZero := by
  unfold Token.mint at h
  split at h
  · injection h with h'; exact Or.inl h'.symm
  split at h
  · injection h with h'; exact Or.inr (Or.inl h'.symm)
  split at h
  · injection h with h'; exact Or.inr (Or.inr h'.symm)
  · exact absurd h (by simp)

/-- Full case analysis of a failing `requestTokens`: which error was
returned determines exactly which guard (in source order) rejected, or
that all guards passed and the nested `mint` failed. -/
theorem requestTokens_error_inv {s : SysState} {c : Nat} {n : Nat} {e : Err}
    (h : requestTokens s c n = .error e) :
    (e = .faucetPaused ∧ s.faucet.paused = true) ∨
    (e = .cooldownActive ∧ s.faucet.paused = false ∧
       ¬(s.faucet.lastClaimAt c = 0 ∨ s.faucet.lastClaimAt c + COOLDOWN_TIME ≤ n)) ∨
    (e = .lifetimeLimitReached ∧ s.faucet.paused = false ∧
       (s.faucet.lastClaimAt c = 0 ∨ s.faucet.lastClaimAt c + COOLDOWN_TIME ≤ n) ∧
       MAX_CLAIM_AMOUNT ≤ s.faucet.totalClaimed c) ∨
    (e = .insufficientAllowance ∧ s.faucet.paused = false ∧
       (s.faucet.lastClaimAt c = 0 ∨ s.faucet.lastClaimAt c + COOLDOWN_TIME ≤ n) ∧
       s.faucet.totalClaimed c < MAX_CLAIM_AMOUNT ∧
       remainingAllowance s.faucet c < FAUCET_AMOUNT) ∨
    ((e = .onlyMinter ∨ e = .exceedsMaxSupply ∨ e = .mintToZero) ∧
       s.faucet.paused = false ∧
       (s.faucet.lastClaimAt c = 0 ∨ s.faucet.lastClaimAt c + COOLDOWN_TIME ≤ n) ∧
       s.faucet.totalClaimed c < MAX_CLAIM_AMOUNT ∧
       FAUCET_AMOUNT ≤ remainingAllowance s.faucet c ∧
       Token.mint s.token s.faucetAddr c FAUCET_AMOUNT = .error e) := by
  unfold requestTokens at h
  split at h
  · rename_i h1
    injection h with h'
    exact Or.inl ⟨h'.symm, h1⟩
  split at h
  · rename_i h1 h2
    injection h with h'
    exact Or.inr (Or.inl ⟨h'.symm, by simpa using h1, h2⟩)
  split at h
  · rename_i h1 h2 h3
    injection h with h'
    exact Or.inr (Or.inr (Or.inl ⟨h'.symm, by simpa using h1, not_not.mp h2, Nat.le_of_not_lt h3⟩))
  split at h
  · rename_i h1 h2 h3 h4
    injection h with h'
    refine Or.inr (Or.inr (Or.inr (Or.inl
      ⟨h'.symm, by simpa using h1, not_not.mp h2, not_not.mp h3, Nat.lt_of_not_le h4⟩)))
  · rename_i h1 h2 h3 h4
    cases hm : Token.mint s.token s.faucetAddr c FAUCET_AMOUNT with
    | error e' =>
        rw [hm] at h
        injection h with h'
        subst h'
        exact Or.inr (Or.inr (Or.inr (Or.inr
          ⟨mint_error_inv hm, by simpa using h1, not_not.mp h2, not_not.mp h3,
           not_not.mp h4, rfl⟩)))
    | ok v =>
        obtain ⟨t, evsm⟩ := v
        rw [hm] at h
        exact absurd h (by simp)

theorem requestTokens_paused {s : SysState} {c : Nat} {n : Nat}
    (hp : s.faucet.paused = true) :
    requestTokens s c n = .error .faucetPaused := by
  unfold requestTokens
  rw [if_pos hp]

theorem requestTokens_cooldown {s : SysState} {c : Nat} {n : Nat}
    (hp : s.faucet.paused = false)
    (hcd : ¬(s.faucet.lastClaimAt c = 0 ∨ s.faucet.lastClaimAt c + COOLDOWN_TIME ≤ n)) :
    requestTokens s c n = .error .cooldownActive := by
  unfold requestTokens
  rw [if_neg (by simp [hp]), if_pos hcd]

theorem requestTokens_lifetime {s : SysState} {c : Nat} {n : Nat}
    (hp : s.faucet.paused = false)
    (hcd : s.faucet.lastClaimAt c = 0 ∨ s.faucet.lastClaimAt c + COOLDOWN_TIME ≤ n)
    (hcap : MAX_CLAIM_AMOUNT ≤ s.faucet.totalClaimed c) :
    requestTokens s c n = .error .lifetimeLimitReached := by
  unfold requestTokens
  rw [if_neg (by simp [hp]), if_neg (not_not_intro hcd), if_pos (not_lt.mpr hcap)]

theorem requestTokens_insufficient {s : SysState} {c : Nat} {n : Nat}
    (hp : s.faucet.paused = false)
    (hcd : s.faucet.lastClaimAt c = 0 ∨ s.faucet.lastClaimAt c + COOLDOWN_TIME ≤ n)
    (hcap : s.faucet.totalClaimed c < MAX_CLAIM_AMOUNT)
    (hall : remainingAllowance s.faucet c < FAUCET_AMOUNT) :
    requestTokens s c n = .error .insufficientAllowance := by
  unfold requestTokens
  rw [if_neg (by simp [hp]), if_neg (not_not_intro hcd), if_neg (not_not_intro hcap),
      if_pos (not_le.mpr hall)]

theorem canClaim_true_iff (f : FaucetState) (now : Nat) (u : Nat) :
    canClaim f now u = true ↔
      f.paused = false ∧ f.totalClaimed u < MAX_CLAIM_AMOUNT ∧
      (f.lastClaimAt u = 0 ∨ f.lastClaimAt u + COOLDOWN_TIME ≤ now) := by
  unfold canClaim
  split_ifs with h1 h2 h3 h4 <;> simp_all

/-! ### Step-level characterizations -/

theorem step_requestClaim_ok {s s' : SysState} {c : Nat} {n : Nat} {evs : List Event}
    (h : requestTokens s c n = .ok (s', evs)) :
    step s (Op.requestClaim c n) = s' ∧ txEvents s (Op.requestClaim c n) = evs := by
  simp only [step, txEvents, stepEv]
  rw [h]
  exact ⟨rfl, rfl⟩

theorem step_requestClaim_error {s : SysState} {c : Nat} {n : Nat} {e : Err}
    (h : requestTokens s c n = .error e) :
    step s (Op.requestClaim c n) = s ∧ txEvents s (Op.requestClaim c n) = [] := by
  simp only [step, txEvents, stepEv]
  rw [h]
  exact ⟨rfl, rfl⟩

theorem step_setPaused_owner {s : SysState} {c : Nat} {b : Bool}
    (h : c = s.faucet.owner) :
    step s (Op.setPausedOp c b) = { s with faucet := { s.faucet with paused := b } } := by
  simp only [step, stepEv, setPaused]
  rw [if_neg (not_not_intro h)]

theorem step_setPaused_notOwner {s : SysState} {c : Nat} {b : Bool}
    (h : c ≠ s.faucet.owner) :
    step s (Op.setPausedOp c b) = s := by
  simp only [step, stepEv, setPaused]
  rw [if_pos h]

theorem step_setMinter_frame (s : SysState) (c m : Nat) :
    (step s (Op.setMinterOp c m)).faucet = s.faucet ∧
    (step s (Op.setMinterOp c m)).faucetAddr = s.faucetAddr ∧
    (step s (Op.setMinterOp c m)).token.balances = s.token.balances ∧
    (step s (Op.setMinterOp c m)).token.totalSupply = s.token.totalSupply := by
  simp only [step, stepEv, Token.setMinter]
  split_ifs <;> exact ⟨rfl, rfl, rfl, rfl⟩

theorem step_mint_frame (s : SysState) (c d : Nat) (a : Nat) :
    (step s (Op.mintOp c d a)).faucet = s.faucet ∧
    (step s (Op.mintOp c d a)).faucetAddr = s.faucetAddr := by
  simp only [step, stepEv]
  cases hm : Token.mint s.token c d a with
  | error e => exact ⟨rfl, rfl⟩
  | ok v => obtain ⟨t, evs⟩ := v; exact ⟨rfl, rfl⟩

theorem step_mint_ok {s : SysState} {c d : Nat} {a : Nat} {t : TokenState}
    {evs : List Event} (h : Token.mint s.token c d a = .ok (t, evs)) :
    step s (Op.mintOp c d a) = { s with token := t } := by
  simp only [step, stepEv]
  rw [h]

/-! ### The reachable-state invariant -/

/-- Facts maintained by every reachable state: each identity's cumulative
claim total is a multiple of `FAUCET_AMOUNT` and never exceeds
`MAX_CLAIM_AMOUNT`; the token's total supply never exceeds `MAX_SUPPLY`;
and the balances sum to the total supply (over any finite set covering all
nonzero balances). -/
def ReachInv (s : SysState) : Prop :=
  (∀ u, FAUCET_AMOUNT ∣ s.faucet.totalClaimed u) ∧
  (∀ u, s.faucet.totalClaimed u ≤ MAX_CLAIM_AMOUNT) ∧
  s.token.totalSupply ≤ MAX_SUPPLY ∧
  ∀ fs : Finset Nat, (∀ a, s.token.balances a ≠ 0 → a ∈ fs) →
    fs.sum s.token.balances = s.token.totalSupply

theorem mint_sum_pres {t t' : TokenState} {c d : Nat} {a : Nat} {evs : List Event}
    (hm : Token.mint t c d a = .ok (t', evs))
    (hsum : ∀ fs : Finset Nat, (∀ x, t.balances x ≠ 0 → x ∈ fs) →
        fs.sum t.balances = t.totalSupply) :
    ∀ fs : Finset Nat, (∀ x, t'.balances x ≠ 0 → x ∈ fs) →
        fs.sum t'.balances = t'.totalSupply := by
  obtain ⟨_, _, hd0, ht', _⟩ := mint_ok_inv hm
  subst ht'
  intro fs hfs
  simp only at hfs ⊢
  have hcov : ∀ x, t.balances x ≠ 0 → x ∈ fs := by
    intro x hx
    apply hfs
    by_cases hxd : x = d
    · subst hxd
      have hne : t.balances x + a ≠ 0 := by omega
      simpa using hne
    · simpa [hxd] using hx
  have hold := hsum fs hcov
  have hsplit : fs.sum (fun x => if x = d then t.balances x + a else t.balances x)
      = fs.sum t.balances + fs.sum (fun x => if x = d then a else 0) := by
    rw [← Finset.sum_add_distrib]
    apply Finset.sum_congr rfl
    intro x _
    by_cases hxd : x = d <;> simp [hxd]
  rw [hsplit, hold, Finset.sum_ite_eq' fs d (fun _ => a)]
  by_cases hdfs : d ∈ fs
  · simp [hdfs]
  · have h0 : t.balances d + a = 0 := by
      by_contra hne
      exact hdfs (hfs d (by simpa using hne))
    simp [hdfs]
    omega

/-- With the default configuration the lifetime cap is ten times the claim
amount, so a multiple of the claim amount below the cap leaves room for at
least one more full claim. -/
theorem allowance_room_of_dvd {claimed : Nat} (hd : FAUCET_AMOUNT ∣ claimed)
    (h : claimed < MAX_CLAIM_AMOUNT) :
    FAUCET_AMOUNT + claimed ≤ MAX_CLAIM_AMOUNT := by
  obtain ⟨k, hk⟩ := hd
  have hF : FAUCET_AMOUNT = 10000000000000000000 := by norm_num [FAUCET_AMOUNT]
  have hM : MAX_CLAIM_AMOUNT = 100000000000000000000 := by norm_num [MAX_CLAIM_AMOUNT]
  subst hk
  rw [hF, hM] at h ⊢
  omega

theorem remainingAllowance_ge {f : FaucetState} {u : Nat}
    (hd : FAUCET_AMOUNT ∣ f.totalClaimed u) (h : f.totalClaimed u < MAX_CLAIM_AMOUNT) :
    FAUCET_AMOUNT ≤ remainingAllowance f u := by
  have := allowance_room_of_dvd hd h
  unfold remainingAllowance
  rw [if_neg (not_le.mpr h)]
  omega

theorem ReachInv_step {s : SysState} (hI : ReachInv s) (op : Op) : ReachInv (step s op) := by
  obtain ⟨hdvd, hcap, hsup, hsum⟩ := hI
  cases op with
  | requestClaim c n =>
      cases hr : requestTokens s c n with
      | error e =>
          rw [(step_requestClaim_error hr).1]
          exact ⟨hdvd, hcap, hsup, hsum⟩
      | ok v =>
          obtain ⟨s', evs⟩ := v
          rw [(step_requestClaim_ok hr).1]
          obtain ⟨hp, hcd, hlt, hall, hm, _, _, _, hlast, hclaim, _⟩ :=
            requestTokens_ok_inv hr
          obtain ⟨_, hms, _, hmt, _⟩ := mint_ok_inv hm
          refine ⟨?_, ?_, ?_, ?_⟩
          · intro u
            rw [hclaim]
            by_cases hu : u = c
            · simp only [hu, if_pos rfl]
              exact dvd_add (hdvd c) dvd_rfl
            · simpa [hu] using hdvd u
          · intro u
            rw [hclaim]
            by_cases hu : u = c
            · have hra : remainingAllowance s.faucet c
                  = MAX_CLAIM_AMOUNT - s.faucet.totalClaimed c := by
                unfold remainingAllowance
                rw [if_neg (not_le.mpr hlt)]
              rw [hra] at hall
              simp only [hu, if_true]
              omega
            · simpa [hu] using hcap u
          · rw [hmt]
            exact hms
          · exact mint_sum_pres hm hsum
  | setPausedOp c b =>
      by_cases hc : c = s.faucet.owner
      · rw [step_setPaused_owner hc]
        exact ⟨hdvd, hcap, hsup, hsum⟩
      · rw [step_setPaused_notOwner hc]
        exact ⟨hdvd, hcap, hsup, hsum⟩
  | setMinterOp c m =>
      obtain ⟨hf, _, hb, hts⟩ := step_setMinter_frame s c m
      refine ⟨?_, ?_, ?_, ?_⟩
      · intro u; rw [hf]; exact hdvd u
      · intro u; rw [hf]; exact hcap u
      · rw [hts]; exact hsup
      · intro fs hcov
        rw [hb] at hcov
        rw [hb, hts]
        exact hsum fs hcov
  | mintOp c d a =>
      obtain ⟨hf, _⟩ := step_mint_frame s c d a
      cases hm : Token.mint s.token c d a with
      | error e =>
          rw [mint_error_state (by rw [hm]; rfl) s rfl]
          exact ⟨hdvd, hcap, hsup, hsum⟩
      | ok v =>
          obtain ⟨t, evs⟩ := v
          rw [step_mint_ok hm]
          obtain ⟨_, hms, _, hmt, _⟩ := mint_ok_inv hm
          refine ⟨hdvd, hcap, ?_, ?_⟩
          · show t.totalSupply ≤ MAX_SUPPLY
            rw [hmt]; exact hms
          · exact mint_sum_pres hm hsum

theorem ReachInv_init (dep fa : Nat) : ReachInv (initState dep fa) := by
  refine ⟨fun u => dvd_zero _, fun u => Nat.zero_le _, Nat.zero_le _, fun fs _ => ?_⟩
  simp [initState]

theorem ReachInv_run (dep fa : Nat) (ops : List Op) : ReachInv (run dep fa ops) := by
  have key : ∀ (l : List Op) (s : SysState), ReachInv s → ReachInv (l.foldl step s) := by
    intro l
    induction l with
    | nil => exact fun s hs => hs
    | cons op tl ih => exact fun s hs => ih _ (ReachInv_step hs op)
  exact key ops _ (ReachInv_init dep fa)

/-! ### Claim theorems -/

/-- C1: after every sequence of operations (claims, pause toggles, issuer
changes, direct mints) every identity's cumulative claim total satisfies
`totalClaimed ≤ MAX_CLAIM_AMOUNT` (the lower bound is inherent to `Nat`);
in particular no successful `requestTokens` ever pushes it above the cap. -/
theorem claim_lifetime_cap_invariant (dep fa : Nat) (ops : List Op) (u : Nat) :
    (run dep fa ops).faucet.totalClaimed u ≤ MAX_CLAIM_AMOUNT :=
  (ReachInv_run dep fa ops).2.1 u

/-- C2: `requestTokens` is atomic: on any failure (guard or nested `mint`)
the committed state is exactly the pre-state and no events are emitted; on
success the `Transfer` and `TokensClaimed` events are each emitted exactly
once. -/
theorem requestClaim_atomicity (s : SysState) (c n : Nat) :
    (∀ e, requestTokens s c n = .error e →
        step s (Op.requestClaim c n) = s ∧ txEvents s (Op.requestClaim c n) = []) ∧
    (∀ s' evs, requestTokens s c n = .ok (s', evs) →
        step s (Op.requestClaim c n) = s' ∧
        txEvents s (Op.requestClaim c n)
          = [Event.transfer 0 c FAUCET_AMOUNT, Event.tokensClaimed c FAUCET_AMOUNT n]) := by
  constructor
  · intro e he
    exact step_requestClaim_error he
  · intro s' evs he
    have h1 := step_requestClaim_ok he
    have h2 := (requestTokens_ok_inv he).2.2.2.2.2.2.2.2.2.2
    exact ⟨h1.1, by rw [h1.2, h2]⟩

/-- Witness for C2: from a fresh deployment (minter unset) a claim passes
all four guards but the nested `mint` fails, and the state rolls back with
no events; after `setMinter(faucet)` the same claim succeeds and emits the
two events exactly once. -/
theorem requestClaim_atomicity_witness :
    (step exInit (Op.requestClaim 3 0) = exInit ∧ txEvents exInit (Op.requestClaim 3 0) = []) ∧
    (step exReady (Op.requestClaim 3 0) = run 1 2 [Op.setMinterOp 1 2, Op.requestClaim 3 0] ∧
     txEvents exReady (Op.requestClaim 3 0)
       = [Event.transfer 0 3 FAUCET_AMOUNT, Event.tokensClaimed 3 FAUCET_AMOUNT 0]) :=
  ⟨(requestClaim_atomicity exInit 3 0).1 .onlyMinter rfl,
   (requestClaim_atomicity exReady 3 0).2
     (run 1 2 [Op.setMinterOp 1 2, Op.requestClaim 3 0])
     [Event.transfer 0 3 FAUCET_AMOUNT, Event.tokensClaimed 3 FAUCET_AMOUNT 0] rfl⟩

/-- C4: the guards of `requestTokens` run in the fixed order pause,
cooldown, lifetime cap, remaining allowance, each with its own distinct
error; each error is returned exactly when its guard is the earliest
failing one. -/
theorem requestTokens_guard_order (s : SysState) (c n : Nat) :
    (requestTokens s c n = .error .faucetPaused ↔ s.faucet.paused = true) ∧
    (requestTokens s c n = .error .cooldownActive ↔
       s.faucet.paused = false ∧ s.faucet.lastClaimAt c ≠ 0 ∧
       n < s.faucet.lastClaimAt c + COOLDOWN_TIME) ∧
    (requestTokens s c n = .error .lifetimeLimitReached ↔
       s.faucet.paused = false ∧
       (s.faucet.lastClaimAt c = 0 ∨ s.faucet.lastClaimAt c + COOLDOWN_TIME ≤ n) ∧
       MAX_CLAIM_AMOUNT ≤ s.faucet.totalClaimed c) ∧
    (requestTokens s c n = .error .insufficientAllowance ↔
       s.faucet.paused = false ∧
       (s.faucet.lastClaimAt c = 0 ∨ s.faucet.lastClaimAt c + COOLDOWN_TIME ≤ n) ∧
       s.faucet.totalClaimed c < MAX_CLAIM_AMOUNT ∧
       remainingAllowance s.faucet c < FAUCET_AMOUNT) := by
  refine ⟨⟨?_, ?_⟩, ⟨?_, ?_⟩, ⟨?_, ?_⟩, ⟨?_, ?_⟩⟩
  · intro h
    rcases requestTokens_error_inv h with ⟨_, hp⟩ | ⟨he, _⟩ | ⟨he, _⟩ | ⟨he, _⟩ | ⟨he, _⟩
    · exact hp
    · exact absurd he (by simp)
    · exact absurd he (by simp)
    · exact absurd he (by simp)
    · rcases he with h1 | h1 | h1 <;> exact absurd h1 (by simp)
  · exact fun hp => requestTokens_paused hp
  · intro h
    rcases requestTokens_error_inv h with ⟨he, _⟩ | ⟨_, hp, hcd⟩ | ⟨he, _⟩ | ⟨he, _⟩ | ⟨he, _⟩
    · exact absurd he (by simp)
    · push_neg at hcd
      exact ⟨hp, hcd.1, hcd.2⟩
    · exact absurd he (by simp)
    · exact absurd he (by simp)
    · rcases he with h1 | h1 | h1 <;> exact absurd h1 (by simp)
  · intro ⟨hp, h0, hlt⟩
    exact requestTokens_cooldown hp (by push_neg; exact ⟨h0, hlt⟩)
  · intro h
    rcases requestTokens_error_inv h with ⟨he, _⟩ | ⟨he, _⟩ | ⟨_, hp, hcd, hcap⟩ | ⟨he, _⟩ | ⟨he, _⟩
    · exact absurd he (by simp)
    · exact absurd he (by simp)
    · exact ⟨hp, hcd, hcap⟩
    · exact absurd he (by simp)
    · rcases he with h1 | h1 | h1 <;> exact absurd h1 (by simp)
  · intro ⟨hp, hcd, hcap⟩
    exact requestTokens_lifetime hp hcd hcap
  · intro h
    rcases requestTokens_error_inv h with ⟨he, _⟩ | ⟨he, _⟩ | ⟨he, _⟩ | ⟨_, hp, hcd, hcap, hall⟩ | ⟨he, _⟩
    · exact absurd he (by simp)
    · exact absurd he (by simp)
    · exact absurd he (by simp)
    · exact ⟨hp, hcd, hcap, hall⟩
    · rcases he with h1 | h1 | h1 <;> exact absurd h1 (by simp)
  · intro ⟨hp, hcd, hcap, hall⟩
    exact requestTokens_insufficient hp hcd hcap hall

/-- Witness for C4: on a paused reachable state the pause error is
returned even though every other guard would also pass or fail
deterministically, and on a state in cooldown the cooldown error is
returned. -/
theorem requestTokens_guard_order_witness :
    requestTokens (run 1 2 [Op.setPausedOp 1 true]) 3 0 = .error .faucetPaused ∧
    requestTokens (run 1 2 [Op.setMinterOp 1 2, Op.requestClaim 3 1]) 3 2
      = .error .cooldownActive :=
  ⟨((requestTokens_guard_order (run 1 2 [Op.setPausedOp 1 true]) 3 0).1).mpr rfl,
   ((requestTokens_guard_order (run 1 2 [Op.setMinterOp 1 2, Op.requestClaim 3 1]) 3 2).2.1).mpr
     ⟨rfl, by decide, by decide⟩⟩

/-- C3: on every reachable state, `canClaim` returns `true` exactly when
`requestTokens` evaluated at the same instant passes all four guards
(returns no guard error) — in particular the fourth guard, which
`canClaim` does not test, never breaks the agreement on reachable states
because every reachable claim total is a multiple of `FAUCET_AMOUNT`. -/
theorem canClaim_agrees_requestTokens (dep fa : Nat) (ops : List Op) (u now : Nat) :
    canClaim (run dep fa ops).faucet now u = true ↔
      ∀ e, requestTokens (run dep fa ops) u now = .error e → guardError e = false := by
  have hdvd := (ReachInv_run dep fa ops).1 u
  constructor
  · intro hcc e he
    obtain ⟨hp, hlt, hcd⟩ := (canClaim_true_iff _ _ _).mp hcc
    rcases requestTokens_error_inv he with
      ⟨he1, hp1⟩ | ⟨he1, _, hcd1⟩ | ⟨he1, _, _, hcap1⟩ | ⟨he1, _, _, _, hall1⟩ | ⟨he1, _⟩
    · rw [hp1] at hp
      exact absurd hp (by simp)
    · exact absurd hcd hcd1
    · exact absurd hlt (not_lt.mpr hcap1)
    · exact absurd (remainingAllowance_ge hdvd hlt) (not_le.mpr hall1)
    · rcases he1 with h1 | h1 | h1 <;> subst h1 <;> rfl
  · intro h
    rw [canClaim_true_iff]
    cases hp : (run dep fa ops).faucet.paused with
    | true =>
        exact absurd (h .faucetPaused (requestTokens_paused hp)) (by simp [guardError])
    | false =>
        by_cases hcd : (run dep fa ops).faucet.lastClaimAt u = 0 ∨
            (run dep fa ops).faucet.lastClaimAt u + COOLDOWN_TIME ≤ now
        · by_cases hcap : (run dep fa ops).faucet.totalClaimed u < MAX_CLAIM_AMOUNT
          · exact ⟨rfl, hcap, hcd⟩
          · exact absurd (h .lifetimeLimitReached
              (requestTokens_lifetime hp hcd (Nat.le_of_not_lt hcap))) (by simp [guardError])
        · exact absurd (h .cooldownActive (requestTokens_cooldown hp hcd))
            (by simp [guardError])

/-- Witness for C3: the agreement instantiated on the freshly deployed
state for a fresh identity. -/
theorem canClaim_agrees_requestTokens_witness :
    canClaim (run 1 2 []).faucet 0 3 = true ↔
      ∀ e, requestTokens (run 1 2 []) 3 0 = .error e → guardError e = false :=
  canClaim_agrees_requestTokens 1 2 [] 3 0

/-- C5: on every reachable state the ledger's invariants hold: the total
supply never exceeds `MAX_SUPPLY`, the balances sum to the total supply,
and a mint that would push the supply over the cap fails (with the
cap-exceeded error when the caller is the recorded minter) and changes
nothing. -/
theorem ledger_invariants (dep fa : Nat) (ops : List Op) :
    (run dep fa ops).token.totalSupply ≤ MAX_SUPPLY ∧
    (∀ fs : Finset Nat, (∀ a, (run dep fa ops).token.balances a ≠ 0 → a ∈ fs) →
        fs.sum (run dep fa ops).token.balances = (run dep fa ops).token.totalSupply) ∧
    (∀ c d a, MAX_SUPPLY < (run dep fa ops).token.totalSupply + a →
        exOk (Token.mint (run dep fa ops).token c d a) = false ∧
        step (run dep fa ops) (Op.mintOp c d a) = run dep fa ops ∧
        (c = (run dep fa ops).token.minter →
          Token.mint (run dep fa ops).token c d a = .error .exceedsMaxSupply)) := by
  obtain ⟨_, _, hsup, hsum⟩ := ReachInv_run dep fa ops
  refine ⟨hsup, hsum, ?_⟩
  intro c d a hover
  have hfail : exOk (Token.mint (run dep fa ops).token c d a) = false := by
    cases hm : Token.mint (run dep fa ops).token c d a with
    | error e => rfl
    | ok v =>
        obtain ⟨t, evs⟩ := v
        obtain ⟨_, hle, _⟩ := mint_ok_inv hm
        exact absurd hle (not_le_of_lt hover)
  refine ⟨hfail, mint_error_state hfail _ rfl, ?_⟩
  intro hc
  unfold Token.mint
  rw [if_neg (not_not_intro hc), if_pos (not_le_of_lt hover)]

/-- Witness for C5: invariants on a state with one successful claim, and a
mint of `MAX_SUPPLY + 1` rejected with the cap error. -/
theorem ledger_invariants_witness :
    ({3} : Finset Nat).sum (run 1 2 [Op.setMinterOp 1 2, Op.requestClaim 3 0]).token.balances
      = (run 1 2 [Op.setMinterOp 1 2, Op.requestClaim 3 0]).token.totalSupply ∧
    exOk (Token.mint (run 1 2 []).token 0 4 (MAX_SUPPLY + 1)) = false ∧
    step (run 1 2 []) (Op.mintOp 0 4 (MAX_SUPPLY + 1)) = run 1 2 [] ∧
    Token.mint (run 1 2 []).token 0 4 (MAX_SUPPLY + 1) = .error .exceedsMaxSupply := by
  have h2 := (ledger_invariants 1 2 []).2.2 0 4 (MAX_SUPPLY + 1) (by decide)
  have hcov : ∀ x, (run 1 2 [Op.setMinterOp 1 2, Op.requestClaim 3 0]).token.balances x ≠ 0 →
      x ∈ ({3} : Finset Nat) := by
    intro x hx
    rw [show (run 1 2 [Op.setMinterOp 1 2, Op.requestClaim 3 0]).token.balances
        = fun y => if y = 3 then 0 + FAUCET_AMOUNT else 0 from rfl] at hx
    by_cases hxy : x = 3
    · simp [hxy]
    · simp [hxy] at hx
  exact ⟨(ledger_invariants 1 2 [Op.setMinterOp 1 2, Op.requestClaim 3 0]).2.1 {3} hcov,
         h2.1, h2.2.1, h2.2.2 rfl⟩

/-- C6: `setPaused` mutates only the pause flag (per-identity records and
token state are untouched, for any caller); while paused every claim fails
with the pause error regardless of per-identity state; and an owner
pause/unpause round trip leaves every identity's record unchanged, with
eligibility afterwards exactly what the unchanged record dictates. -/
theorem setPaused_frame (s : SysState) (c u : Nat) (b : Bool) (now : Nat) :
    (step s (Op.setPausedOp c b)).faucet.lastClaimAt = s.faucet.lastClaimAt ∧
    (step s (Op.setPausedOp c b)).faucet.totalClaimed = s.faucet.totalClaimed ∧
    (step s (Op.setPausedOp c b)).token = s.token ∧
    (s.faucet.paused = true → requestTokens s u now = .error .faucetPaused) ∧
    (c = s.faucet.owner →
      (step (step s (Op.setPausedOp c true)) (Op.setPausedOp c false)).faucet.lastClaimAt
          = s.faucet.lastClaimAt ∧
      (step (step s (Op.setPausedOp c true)) (Op.setPausedOp c false)).faucet.totalClaimed
          = s.faucet.totalClaimed ∧
      canClaim (step (step s (Op.setPausedOp c true)) (Op.setPausedOp c false)).faucet now u
        = canClaim { s.faucet with paused := false } now u) := by
  have hframe : ∀ b' : Bool,
      (step s (Op.setPausedOp c b')).faucet.lastClaimAt = s.faucet.lastClaimAt ∧
      (step s (Op.setPausedOp c b')).faucet.totalClaimed = s.faucet.totalClaimed ∧
      (step s (Op.setPausedOp c b')).token = s.token := by
    intro b'
    by_cases hc : c = s.faucet.owner
    · rw [step_setPaused_owner hc]
      exact ⟨rfl, rfl, rfl⟩
    · rw [step_setPaused_notOwner hc]
      exact ⟨rfl, rfl, rfl⟩
  refine ⟨(hframe b).1, (hframe b).2.1, (hframe b).2.2, ?_, ?_⟩
  · exact fun hp => requestTokens_paused hp
  · intro hc
    rw [step_setPaused_owner hc]
    have hc' : c = ({ s with faucet := { s.faucet with paused := true } } : SysState).faucet.owner := hc
    rw [step_setPaused_owner hc']
    exact ⟨rfl, rfl, rfl⟩

/-- Witness for C6: on a paused reachable state a claim by an otherwise
fully eligible fresh identity fails with the pause error, and the owner's
pause/unpause round trip restores that identity's eligibility. -/
theorem setPaused_frame_witness :
    requestTokens (run 1 2 [Op.setMinterOp 1 2, Op.setPausedOp 1 true]) 3 0
      = .error .faucetPaused ∧
    canClaim (step (step (run 1 2 [Op.setMinterOp 1 2, Op.setPausedOp 1 true])
        (Op.setPausedOp 1 true)) (Op.setPausedOp 1 false)).faucet 0 3
      = canClaim { (run 1 2 [Op.setMinterOp 1 2, Op.setPausedOp 1 true]).faucet
                     with paused := false } 0 3 :=
  ⟨(setPaused_frame (run 1 2 [Op.setMinterOp 1 2, Op.setPausedOp 1 true]) 1 3 true 0).2.2.2.1 rfl,
   ((setPaused_frame (run 1 2 [Op.setMinterOp 1 2, Op.setPausedOp 1 true]) 1 3 true 0).2.2.2.2
      rfl).2.2⟩

/-- C7 counterexample: the claim says `issue` fails with an invalid-argument
error whenever `amount == 0`, but `Token.mint` has no such check: with the
minter configured, a zero-amount mint to a nonzero recipient succeeds. -/
theorem mint_zero_amount_accepted :
    exOk (Token.mint (run 1 2 [Op.setMinterOp 1 2]).token 2 3 0) = true := rfl

/-- C7 amended: `Token.mint` rejects a null recipient — with the
zero-address error when the caller is the minter and the cap is respected —
and on every failed mint neither balances nor total supply change; a zero
`amount` by itself is not rejected. -/
theorem mint_null_to_rejected (s : SysState) (c a : Nat) :
    exOk (Token.mint s.token c 0 a) = false ∧
    step s (Op.mintOp c 0 a) = s ∧
    (c = s.token.minter → s.token.totalSupply + a ≤ MAX_SUPPLY →
        Token.mint s.token c 0 a = .error .mintToZero) := by
  have hfail : exOk (Token.mint s.token c 0 a) = false := by
    cases hm : Token.mint s.token c 0 a with
    | error e => rfl
    | ok v =>
        obtain ⟨t, evs⟩ := v
        obtain ⟨_, _, hd0, _⟩ := mint_ok_inv hm
        exact absurd rfl hd0
  refine ⟨hfail, mint_error_state hfail s rfl, ?_⟩
  intro hc hcap
  unfold Token.mint
  rw [if_neg (not_not_intro hc), if_neg (not_not_intro hcap), if_pos rfl]

/-- Witness for C7 (amended): a mint to the zero address by the configured
minter, well under the cap, fails with the zero-address error and changes
nothing. -/
theorem mint_null_to_rejected_witness :
    exOk (Token.mint (run 1 2 [Op.setMinterOp 1 2]).token 2 0 5) = false ∧
    step (run 1 2 [Op.setMinterOp 1 2]) (Op.mintOp 2 0 5) = run 1 2 [Op.setMinterOp 1 2] ∧
    Token.mint (run 1 2 [Op.setMinterOp 1 2]).token 2 0 5 = .error .mintToZero := by
  have h := mint_null_to_rejected (run 1 2 [Op.setMinterOp 1 2]) 2 5
  exact ⟨h.1, h.2.1, h.2.2 rfl (by decide)⟩

/-- C8: under the shipped constants the insufficient-allowance guard is
dead code: on every reachable state, a claim total below the cap leaves
allowance for at least one full claim, so `requestTokens` never returns
the insufficient-allowance error. -/
theorem insufficientAllowance_unreachable (dep fa : Nat) (ops : List Op) (u now : Nat) :
    ((run dep fa ops).faucet.totalClaimed u < MAX_CLAIM_AMOUNT →
        FAUCET_AMOUNT ≤ remainingAllowance (run dep fa ops).faucet u) ∧
    requestTokens (run dep fa ops) u now ≠ .error .insufficientAllowance := by
  have hdvd := (ReachInv_run dep fa ops).1 u
  constructor
  · exact fun h => remainingAllowance_ge hdvd h
  · intro h
    rcases requestTokens_error_inv h with
      ⟨he, _⟩ | ⟨he, _⟩ | ⟨he, _⟩ | ⟨_, _, _, hlt, hall⟩ | ⟨he, _⟩
    · exact absurd he (by simp)
    · exact absurd he (by simp)
    · exact absurd he (by simp)
    · exact absurd (remainingAllowance_ge hdvd hlt) (not_le.mpr hall)
    · rcases he with h1 | h1 | h1 <;> exact absurd h1 (by simp)

/-- Witness for C8: after nine successful claims the tenth still has a
full claim of allowance left, and the guard does not fire. -/
theorem insufficientAllowance_unreachable_witness :
    FAUCET_AMOUNT ≤ remainingAllowance
      (run 1 2 (Op.setMinterOp 1 2 :: List.replicate 9 (Op.requestClaim 3 0))).faucet 3 ∧
    requestTokens (run 1 2 (Op.setMinterOp 1 2 :: List.replicate 9 (Op.requestClaim 3 0))) 3 0
      ≠ .error .insufficientAllowance :=
  ⟨(insufficientAllowance_unreachable 1 2
      (Op.setMinterOp 1 2 :: List.replicate 9 (Op.requestClaim 3 0)) 3 0).1 (by decide),
   (insufficientAllowance_unreachable 1 2
      (Op.setMinterOp 1 2 :: List.replicate 9 (Op.requestClaim 3 0)) 3 0).2⟩

/-- C9 counterexample: with NO intervening operation at all, two `canClaim`
reads of the same state at different block timestamps disagree (the
cooldown expires between them), so "returns the same value every time"
fails as stated once the clock may advance between calls. -/
theorem canClaim_not_time_invariant :
    canClaim (run 1 2 [Op.setMinterOp 1 2, Op.requestClaim 3 1]).faucet 1 3 = false ∧
    canClaim (run 1 2 [Op.setMinterOp 1 2, Op.requestClaim 3 1]).faucet 86401 3 = true :=
  ⟨rfl, rfl⟩

/-- C9 amended: at a fixed timestamp, `canClaim` returns the same value
across any number of calls, and remains unchanged under any intervening
operations other than `requestTokens` and `setPaused` (it mutates no state
itself: it is a pure function of the state and the timestamp). -/
theorem canClaim_stable (s : SysState) (ops : List Op) (u now : Nat)
    (h : ∀ op ∈ ops, mutatesEligibility op = false) :
    canClaim (ops.foldl step s).faucet now u = canClaim s.faucet now u := by
  revert h
  induction ops generalizing s with
  | nil => intro _; rfl
  | cons op tl ih =>
      intro h
      have hop := h op (List.mem_cons_self op tl)
      have htl : ∀ op' ∈ tl, mutatesEligibility op' = false :=
        fun op' hm => h op' (List.mem_cons_of_mem _ hm)
      rw [List.foldl_cons, ih (step s op) htl]
      cases op with
      | requestClaim c n => simp [mutatesEligibility] at hop
      | setPausedOp c b => simp [mutatesEligibility] at hop
      | setMinterOp c m => rw [(step_setMinter_frame s c m).1]
      | mintOp c d a => rw [(step_mint_frame s c d a).1]

/-- Witness for C9 (amended): an issuer change and a direct mint intervene
between two `canClaim` reads at the same timestamp without changing the
answer. -/
theorem canClaim_stable_witness :
    canClaim ([Op.setMinterOp 1 2, Op.mintOp 2 4 7].foldl step exInit).faucet 0 3
      = canClaim exInit.faucet 0 3 :=
  canClaim_stable exInit [Op.setMinterOp 1 2, Op.mintOp 2 4 7] 3 0 (by decide)

/-- C10 counterexample: a claim executed at block timestamp 0 stores
`lastClaimAt = 0`, so ten zero-timestamp claims in a row all pass the
cooldown guard and all succeed; the tenth is a successful claim at time 0
after which `lastClaimAt` is still 0 but `canClaim` returns `false` (the
lifetime cap is exhausted), contradicting the claim that `canClaim`
returns `true` immediately after any successful time-0 claim. -/
theorem zero_timestamp_claim_cex :
    exOk (requestTokens
        (run 1 2 (Op.setMinterOp 1 2 :: List.replicate 9 (Op.requestClaim 3 0))) 3 0) = true ∧
    (run 1 2 (Op.setMinterOp 1 2 :: List.replicate 10 (Op.requestClaim 3 0))).faucet.lastClaimAt 3
      = 0 ∧
    canClaim (run 1 2 (Op.setMinterOp 1 2 :: List.replicate 10 (Op.requestClaim 3 0))).faucet 0 3
      = false :=
  ⟨rfl, rfl, rfl⟩

/-- C10 amended: a stored last-claim time of 0 is indistinguishable from
never-claimed: whenever `lastClaimAt[u] = 0` the cooldown guard is skipped
at every timestamp; a successful claim at time 0 leaves `lastClaimAt = 0`,
so immediately afterwards `timeUntilNextClaim` is 0, a second claim can
never fail on cooldown, and `canClaim` returns `true` provided that claim
did not just exhaust the lifetime cap. -/
theorem lastClaim_zero_indistinguishable (s : SysState) (u : Nat) :
    (s.faucet.lastClaimAt u = 0 →
        ∀ now, requestTokens s u now ≠ .error .cooldownActive) ∧
    (∀ s' evs, requestTokens s u 0 = .ok (s', evs) →
        s'.faucet.lastClaimAt u = 0 ∧
        timeUntilNextClaim s'.faucet 0 u = 0 ∧
        (∀ now', requestTokens s' u now' ≠ .error .cooldownActive) ∧
        (s'.faucet.totalClaimed u < MAX_CLAIM_AMOUNT → canClaim s'.faucet 0 u = true)) := by
  have hnocd : ∀ (s₀ : SysState), s₀.faucet.lastClaimAt u = 0 →
      ∀ now, requestTokens s₀ u now ≠ .error .cooldownActive := by
    intro s₀ h0 now hreq
    rcases requestTokens_error_inv hreq with
      ⟨he, _⟩ | ⟨_, _, hcd⟩ | ⟨he, _⟩ | ⟨he, _⟩ | ⟨he, _⟩
    · exact absurd he (by simp)
    · exact hcd (Or.inl h0)
    · exact absurd he (by simp)
    · exact absurd he (by simp)
    · rcases he with h1 | h1 | h1 <;> exact absurd h1 (by simp)
  refine ⟨hnocd s, ?_⟩
  intro s' evs hok
  obtain ⟨hp, _, hlt, hall, _, _, _, hps, hlast, hclaim, _⟩ := requestTokens_ok_inv hok
  have h0' : s'.faucet.lastClaimAt u = 0 := by
    rw [hlast]
    simp
  refine ⟨h0', ?_, hnocd s' h0', ?_⟩
  · unfold timeUntilNextClaim
    rw [if_pos h0']
  · intro hlt'
    rw [canClaim_true_iff]
    exact ⟨by rw [hps]; exact hp, hlt', Or.inl h0'⟩

/-- Witness for C10 (amended): a fresh identity's first claim at time 0
leaves it with `lastClaimAt = 0`, zero wait, a cooldown guard that cannot
fire, and restored eligibility. -/
theorem lastClaim_zero_indistinguishable_witness :
    requestTokens exReady 3 7 ≠ .error .cooldownActive ∧
    (run 1 2 [Op.setMinterOp 1 2, Op.requestClaim 3 0]).faucet.lastClaimAt 3 = 0 ∧
    timeUntilNextClaim (run 1 2 [Op.setMinterOp 1 2, Op.requestClaim 3 0]).faucet 0 3 = 0 ∧
    requestTokens (run 1 2 [Op.setMinterOp 1 2, Op.requestClaim 3 0]) 3 0
      ≠ .error .cooldownActive ∧
    canClaim (run 1 2 [Op.setMinterOp 1 2, Op.requestClaim 3 0]).faucet 0 3 = true := by
  have h1 := (lastClaim_zero_indistinguishable exReady 3).1 rfl 7
  have h2 := (lastClaim_zero_indistinguishable exReady 3).2
    (run 1 2 [Op.setMinterOp 1 2, Op.requestClaim 3 0])
    [Event.transfer 0 3 FAUCET_AMOUNT, Event.tokensClaimed 3 FAUCET_AMOUNT 0] rfl
  exact ⟨h1, h2.1, h2.2.1, h2.2.2.1 0, h2.2.2.2 (by decide)⟩
